import Mathlib

/-!
Verification of the `in-n-out` dependency-injection library (`src/in_n_out`),
as a shallow embedding of its current-generation modules `_store.py`,
`_util.py` and `_type_resolution.py`.

Modelling conventions:
* A Python *type object* (class) is an `Atom.cls c` with `c : Nat` its identity;
  the `issubclass` relation between class identities is an explicit parameter
  `sub : Nat → Nat → Bool` of the lookup functions that consult it.
* A hashable non-class hint object is `Atom.other o`.
* A `typing.Union`/`Optional` hint is `Hint.union args` whose arguments are the
  (already flattened, as Python's `Union` constructor flattens) member atoms,
  with `none` standing for `NoneType`.
* Callbacks (providers/processors) are values of an abstract type `γ` with
  decidable equality (Python compares functions by identity); a provider's
  behaviour is a separate interpretation `interp : γ → Option V`, where
  `Option.none` is Python's `None`.
* Registration weights are modelled as `Int`; the source declares them `float`
  but only ever compares them, and every weight in the claims is integral.
* Insertion-ordered Python `dict`s are association lists.
-/

set_option maxRecDepth 4096

/-- One Python class identity together with nothing else; classes are plain
`Nat` identifiers, and `issubclass` is an explicit boolean relation. -/
abbrev ClassId := Nat

/-- A single (non-union) registrable hint object: either a type object
(`cls`) or some other hashable object (`other`), e.g. a parametrized generic.
Models the values that `_split_union` returns in its first component. -/
inductive Atom where
  | cls (c : ClassId)
  | other (o : Nat)
deriving DecidableEq, Repr

/-- A type hint as passed to registration or query: a single object, or a
union whose arguments may include `NoneType` (modelled as `none`). -/
inductive Hint where
  | atom (a : Atom)
  | union (args : List (Option Atom))
deriving DecidableEq, Repr

/-- `_util._split_union`: a union hint is split into its non-`None` members
plus a flag recording whether a `NoneType` member was present; any other hint
is returned unchanged as a singleton with flag `false`. -/
def splitUnion : Hint → List Atom × Bool
  | .atom a => ([a], false)
  | .union args => (args.filterMap id, args.contains none)

/-- `_util.issubclassable`: whether the object can be the second argument of
`issubclass`.  In the model exactly the class atoms are subclassable. -/
def issubclassable : Atom → Bool
  | .cls _ => true
  | .other _ => false

/-- `_store._RegisteredCallback`: one entry of a store's provider or processor
list. -/
structure RegisteredCallback (γ : Type) where
  origin : Atom
  callback : γ
  hint_optional : Bool
  weight : Int
  subclassable : Bool
deriving DecidableEq, Repr

/-- The entries created for one `(callback, type_hint, weight)` registration
tuple by `Store._register_callbacks`: the hint is split by `_split_union` and
one entry per non-`None` member is produced, all sharing the callback, the
weight and the optional flag; `subclassable` is per-origin. -/
def entriesFor {γ : Type} (cb : γ) (hint : Hint) (weight : Int) :
    List (RegisteredCallback γ) :=
  let s := splitUnion hint
  s.1.map fun o => ⟨o, cb, s.2, weight, issubclassable o⟩

/-- The `to_register` list assembled by `Store._register_callbacks` for a call
registering the given tuples (each already carrying an explicit hint and
weight, as the claims do). -/
def toRegister {γ : Type} (tups : List (γ × Hint × Int)) :
    List (RegisteredCallback γ) :=
  (tups.map fun t => entriesFor t.1 t.2.1 t.2.2).flatten

/-- An insertion-ordered Python `dict` as an association list. -/
abbrev Dict (κ β : Type) := List (κ × β)

/-- Dictionary lookup (`k in d` / `d[k]`). -/
def dictGet {κ β : Type} [DecidableEq κ] (d : Dict κ β) (k : κ) : Option β :=
  match d with
  | [] => none
  | (k', v) :: rest => if k' = k then some v else dictGet rest k

/-- The `all_[p.origin].append(p)` step of `Store._build_map` (creating the
key at the end of the dict when absent, as Python dicts do). -/
def dictAppend {κ β : Type} [DecidableEq κ] (d : Dict κ (List β)) (k : κ)
    (v : β) : Dict κ (List β) :=
  match d with
  | [] => [(k, [v])]
  | (k', l) :: rest =>
    if k' = k then (k', l ++ [v]) :: rest else (k', l) :: dictAppend rest k v

/-- `del d[k]`: remove the (unique, in a real dict) entry with key `k`. -/
def dictRemove {κ β : Type} [DecidableEq κ] (d : Dict κ β) (k : κ) : Dict κ β :=
  match d with
  | [] => []
  | (k', v) :: rest => if k' = k then rest else (k', v) :: dictRemove rest k

/-- Insert one callback into a list already sorted weight-descending, before
the first entry of weight ≤ its own.  Auxiliary step of `sortDesc`. -/
def insertByWeight {γ : Type} (x : RegisteredCallback γ) :
    List (RegisteredCallback γ) → List (RegisteredCallback γ)
  | [] => [x]
  | y :: ys =>
    if y.weight ≤ x.weight then x :: y :: ys else y :: insertByWeight x ys

/-- `sorted(val, key=Store._sort_key, reverse=True)`: a stable sort by weight,
descending (`Store._sort_key` returns exactly the weight).  Python's `sorted`
is stable also with `reverse=True`: equal weights keep their original order. -/
def sortDesc {γ : Type} :
    List (RegisteredCallback γ) → List (RegisteredCallback γ)
  | [] => []
  | x :: xs => insertByWeight x (sortDesc xs)

/-- `_store._CachedMap` with the callbacks already extracted: a dict of *all*
origins and a dict restricted to subclassable origins, each mapping an origin
to its weight-sorted callback list. -/
structure CachedMap (γ : Type) where
  all : Dict Atom (List γ)
  subclassable : Dict Atom (List γ)
deriving DecidableEq, Repr

/-- The grouping loop of `Store._build_map`: fold the registry into an
insertion-ordered dict of per-origin entry lists. -/
def buildBuckets {γ : Type} (regs : List (RegisteredCallback γ)) :
    Dict Atom (List (RegisteredCallback γ)) :=
  regs.foldl (fun d p => dictAppend d p.origin p) []

/-- `Store._build_map`: group the registry by origin (all entries, and the
subclassable ones), then sort each bucket weight-descending (stably) and keep
only the callbacks. -/
def buildMap {γ : Type} (regs : List (RegisteredCallback γ)) : CachedMap γ :=
  { all := (buildBuckets regs).map fun e => (e.1, (sortDesc e.2).map (·.callback))
    subclassable :=
      (buildBuckets (regs.filter (·.subclassable))).map fun e =>
        (e.1, (sortDesc e.2).map (·.callback)) }

/-- The per-member lookup inside `Store._iter_type_map`: an exact hit in the
full map wins; otherwise, when the member is a type, the subclassable map is
scanned in insertion order for the first registered ancestor. -/
def lookupOrigin {γ : Type} (sub : ClassId → ClassId → Bool)
    (cm : CachedMap γ) (a : Atom) : Option (List γ) :=
  match dictGet cm.all a with
  | some cbs => some cbs
  | none =>
    match a with
    | .cls c =>
      (cm.subclassable.find? fun e =>
        match e.1 with
        | .cls k => sub c k
        | .other _ => false).map (·.2)
    | .other _ => none

/-- `Store._iter_type_map`: split the query hint, and for the first union
member that hits (exactly or through the subclass scan) yield that entire
callback list and stop; no hit anywhere yields nothing. -/
def iterTypeMap {γ : Type} (sub : ClassId → ClassId → Bool)
    (cm : CachedMap γ) (hint : Hint) : List γ :=
  ((splitUnion hint).1.findSome? (lookupOrigin sub cm)).getD []

/-- The loop of `Store.provide`: call each provider in order and return the
first non-`None` result, or `None` when all results are `None`. -/
def provideList {γ V : Type} (interp : γ → Option V) : List γ → Option V
  | [] => none
  | cb :: rest =>
    match interp cb with
    | some v => some v
    | none => provideList interp rest

/-- The mutable per-store state relevant to the claims: the registry list
(`_providers` or `_processors`) and the memoized map (`_cached_provider_map` /
`_cached_processor_map`), absent when invalidated or never built. -/
structure StoreState (γ : Type) where
  regs : List (RegisteredCallback γ)
  cache : Option (CachedMap γ)
deriving Repr

/-- A store with nothing registered and no cache built. -/
def emptyStore {γ : Type} : StoreState γ := ⟨[], none⟩

/-- Reading the cached map: the memoized value when present, else the map is
(re)built from the registry (`functools.cached_property`). -/
def getMap {γ : Type} (st : StoreState γ) : CachedMap γ :=
  match st.cache with
  | some m => m
  | none => buildMap st.regs

/-- The tail of `Store._register_callbacks`: extend the registry with the
assembled `to_register` entries and, when any were assembled, invalidate the
cache.  Returns the new state together with `to_register` (which the returned
disposer closes over). -/
def registerCall {γ : Type} (st : StoreState γ) (tups : List (γ × Hint × Int)) :
    StoreState γ × List (RegisteredCallback γ) :=
  let tr := toRegister tups
  if tr.isEmpty then (st, tr)
  else ({ regs := st.regs ++ tr, cache := none }, tr)

/-- `list.remove(p)` with `contextlib.suppress(ValueError)`: delete the first
entry equal to `p`, doing nothing when none is present. -/
def removeFirst {α : Type} [DecidableEq α] : List α → α → List α
  | [], _ => []
  | x :: xs, p => if x = p then xs else x :: removeFirst xs p

/-- The registry effect of `Store._register_callbacks._dispose`: remove, one
by one, the first entry equal to each registered entry. -/
def dispose {γ : Type} [DecidableEq γ] (tr : List (RegisteredCallback γ))
    (regs : List (RegisteredCallback γ)) : List (RegisteredCallback γ) :=
  tr.foldl removeFirst regs

/-- `Store._register_callbacks._dispose` on the full state: remove this
call's entries and invalidate the cache. -/
def disposeCall {γ : Type} [DecidableEq γ] (st : StoreState γ)
    (tr : List (RegisteredCallback γ)) : StoreState γ :=
  { regs := dispose tr st.regs, cache := none }

/-- `InjectionContext`: the aggregated disposers, each represented by the
`to_register` list it closes over. -/
structure InjCtx (γ : Type) where
  disposers : List (List (RegisteredCallback γ))
deriving Repr

/-- `InjectionContext.cleanup`: invoke every aggregated disposer, then clear
the aggregate. -/
def cleanup {γ : Type} [DecidableEq γ] (ctx : InjCtx γ) (st : StoreState γ) :
    StoreState γ × InjCtx γ :=
  (ctx.disposers.foldl disposeCall st, ⟨[]⟩)

/-- `Store.iter_providers` / `Store.iter_processors` on a store state. -/
def iterStore {γ : Type} (sub : ClassId → ClassId → Bool) (st : StoreState γ)
    (hint : Hint) : List γ :=
  iterTypeMap sub (getMap st) hint

/-- `Store.provide` on a store state. -/
def provideStore {γ V : Type} (interp : γ → Option V)
    (sub : ClassId → ClassId → Bool) (st : StoreState γ) (hint : Hint) :
    Option V :=
  provideList interp (iterStore sub st hint)

/-! ### Store lifecycle (`Store.create` / `Store.get_store` / `Store.destroy`)

`Store._instances` is a class-level name→Store dict.  Store instances are
modelled by the numeric identity they receive at creation; two lookups return
the identical instance exactly when they return the same identity. -/

/-- `name.lower()`: per-character ASCII lower-casing (the store names the
library manipulates are ordinary identifiers; `str.lower` lower-cases each
character). -/
def pyLower (s : String) : String := ⟨s.data.map Char.toLower⟩

/-- The reserved literal `_GLOBAL = "global"`. -/
def GLOBAL : String := "global"

/-- The process-wide `Store._instances` registry plus a fresh-identity
counter standing for allocation of new `Store` objects. -/
structure Registry where
  instances : Dict String Nat
  nextId : Nat
deriving Repr

/-- The registry at import time: the global store is pre-created
(`Store._instances[_GLOBAL] = GLOBAL_STORE = Store(_GLOBAL)`). -/
def initRegistry : Registry := ⟨[(GLOBAL, 0)], 1⟩

/-- The distinct error exits of the three lifecycle classmethods: `create`
raises `KeyError` for the reserved name and for an existing name, `get_store`
and `destroy` raise `KeyError` for an unknown name, and `destroy` raises
`ValueError` for the global name. -/
inductive StoreErr where
  | keyErrReserved
  | keyErrExists
  | keyErrNotFound
  | valueErrGlobalDestroy
deriving DecidableEq, Repr

/-- `Store.create`: lower-case the name; refuse the reserved name and names
already in use; otherwise allocate a new store, register it under the
lower-cased name and return it. -/
def Registry.create (r : Registry) (name : String) :
    Except StoreErr (Registry × Nat) :=
  let n := pyLower name
  if n = GLOBAL then .error .keyErrReserved
  else if (dictGet r.instances n).isSome then .error .keyErrExists
  else .ok (⟨r.instances ++ [(n, r.nextId)], r.nextId + 1⟩, r.nextId)

/-- `Store.get_store`: `name = (name or _GLOBAL).lower()` — a `None` *or a
falsy (empty) string* selects the global name; unknown names raise. -/
def Registry.getStore (r : Registry) (name : Option String) :
    Except StoreErr Nat :=
  let n := pyLower (match name with
    | none => GLOBAL
    | some s => if s = "" then GLOBAL else s)
  match dictGet r.instances n with
  | some id => .ok id
  | none => .error .keyErrNotFound

/-- `Store.destroy`: the global name is refused with `ValueError`, unknown
names raise `KeyError`, otherwise the entry is deleted. -/
def Registry.destroy (r : Registry) (name : String) :
    Except StoreErr Registry :=
  let n := pyLower name
  if n = GLOBAL then .error .valueErrGlobalDestroy
  else if (dictGet r.instances n).isNone then .error .keyErrNotFound
  else .ok ⟨dictRemove r.instances n, r.nextId⟩

/-! ### The injected call (`Store.inject._exec`)

The claims concern functions whose parameters are all required (no
defaults).  The resolved signature is a list of `(parameter name, resolved
hint)` pairs, the caller's (keyword-bound) arguments are a partial map from
parameter names to values, and the underlying function consumes its argument
values in parameter order. -/

/-- The argument-assembly loop of `Store.inject._exec` for a signature of
required parameters: a parameter already bound by the caller keeps the
caller's value; an unbound parameter receives the store's provided value when
that is non-`None`; if any parameter ends up with no value the underlying
call raises (`None` result). -/
def execInjected {V : Type} (provideV : Hint → Option V)
    (caller : String → Option V) :
    List (String × Hint) → Option (List V)
  | [] => some []
  | (n, ann) :: rest =>
    let arg := match caller n with
    | some v => some v
    | none => provideV ann
    match arg, execInjected provideV caller rest with
    | some v, some l => some (v :: l)
    | _, _ => none

/-- The full injected call: assemble the arguments, then invoke the
underlying function on them (`func(**bound.arguments)`); `none` models the
`TypeError` re-raised when a required argument is still missing. -/
def callInjected {V R : Type} (f : List V → R) (provideV : Hint → Option V)
    (params : List (String × Hint)) (caller : String → Option V) : Option R :=
  (execInjected provideV caller params).map f

/-- A caller passing no arguments at all. -/
def noArgs {V : Type} : String → Option V := fun _ => none

/-! ### Decoration-time policies (`_resolve_sig_or_inform`, `Store.inject`)

`_resolve_sig_or_inform` walks the resolved signature's parameters; for each
*required* parameter whose annotation is still a string/`ForwardRef` it
applies `on_unresolved_required_args`, and for each required parameter with
no annotation at all it applies `on_unannotated_required_args`.  `raise`
raises, `warn` emits a warning **and keeps going**, `return` returns `None`
(upon which `inject` hands the original function back), `ignore` keeps going
silently; reaching the end returns the resolved signature (upon which
`inject` builds and returns the `_exec` wrapper). -/

/-- The four-way policy values. -/
inductive Policy where
  | raiseP
  | warnP
  | returnP
  | ignoreP
deriving DecidableEq, Repr

/-- The resolution state of one parameter's annotation after
`type_resolved_signature` with both strict modes relaxed. -/
inductive Ann where
  | resolved (h : Hint)
  | unresolvedRef
  | emptyAnn
deriving DecidableEq, Repr

/-- One parameter of the resolved signature, as inspected by
`_resolve_sig_or_inform`: whether it has a default, and its annotation. -/
structure ParamModel where
  hasDefault : Bool
  ann : Ann
deriving DecidableEq, Repr

/-- The exception classes the policy loop can raise. -/
inductive ExcKind where
  | nameError
  | typeError
deriving DecidableEq, Repr

/-- The parameter loop of `_resolve_sig_or_inform`, accumulating the number
of warnings emitted; the boolean result is `true` when the signature is
returned (decoration proceeds) and `false` when `None` is returned (the
original function is handed back). -/
def informLoop (u a : Policy) : List ParamModel → Nat → Nat × Except ExcKind Bool
  | [], w => (w, .ok true)
  | p :: rest, w =>
    if p.hasDefault then informLoop u a rest w
    else
      match p.ann with
      | .unresolvedRef =>
        match u with
        | .raiseP => (w, .error .nameError)
        | .warnP => informLoop u a rest (w + 1)
        | .returnP => (w, .ok false)
        | .ignoreP => informLoop u a rest w
      | .emptyAnn =>
        match a with
        | .raiseP => (w, .error .typeError)
        | .warnP => informLoop u a rest (w + 1)
        | .returnP => (w, .ok false)
        | .ignoreP => informLoop u a rest w
      | .resolved _ => informLoop u a rest w

/-- What `Store.inject` hands back for a function with required parameters:
the original function (when `_resolve_sig_or_inform` returned `None`) or the
injecting `_exec` wrapper (when it returned a signature). -/
inductive InjectOut where
  | original
  | decorated
deriving DecidableEq, Repr

/-- The decoration decision of `Store.inject` driven by
`_resolve_sig_or_inform`, with the warning count carried along. -/
def injectResolve (u a : Policy) (ps : List ParamModel) :
    Nat × Except ExcKind InjectOut :=
  match informLoop u a ps 0 with
  | (w, .error e) => (w, .error e)
  | (w, .ok false) => (w, .ok .original)
  | (w, .ok true) => (w, .ok .decorated)

/-- A required parameter that triggers one of the two policies. -/
def triggers (p : ParamModel) : Bool :=
  !p.hasDefault && (p.ann == .unresolvedRef || p.ann == .emptyAnn)

/-! ### Per-call settings (`Store.inject`, lines 729–731)

`on_unres = on_unresolved_required_args or self.on_unresolved_required_args`
and likewise for the other two settings.  Python's `or` keeps the left
operand when it is truthy: every policy string is truthy, `None` is falsy —
but so is the boolean `False`, which is why the `guess_self` resolution is
modelled separately. -/

/-- `on_unresolved_required_args or self.on_unresolved_required_args` (and
the `on_unannotated` twin): every explicit policy value is a non-empty,
truthy string, so `or` keeps it; `None` falls back to the store default. -/
def resolvePolicyArg (explicit : Option Policy) (storeDefault : Policy) :
    Policy :=
  match explicit with
  | some p => p
  | none => storeDefault

/-- `_guess_self = guess_self or self.guess_self`: `True` is truthy and kept,
but both `None` *and the explicit `False`* are falsy, so both fall back to
the store default. -/
def resolveGuessSelf (explicit : Option Bool) (storeDefault : Bool) : Bool :=
  match explicit with
  | some true => true
  | some false => storeDefault
  | none => storeDefault

/-! ### Concrete instances used by the claim witnesses and counterexamples

Callbacks are identified by natural numbers; `subRefl` is the reflexive
`issubclass` on a universe of unrelated classes, and `subSeq` makes class `1`
(`list`) a strict subclass of class `0` (`Sequence`). -/

/-- `issubclass` on unrelated classes: reflexivity only. -/
def subRefl : ClassId → ClassId → Bool := fun a b => a == b

/-- `issubclass` with class `1` (`list`) a subclass of class `0`
(`Sequence`), and not conversely. -/
def subSeq : ClassId → ClassId → Bool := fun a b => a == b || (a == 1 && b == 0)

/-- Python's `Optional[int]`: `Union[int, None]`, with `int` as class `0`. -/
def optIntHint : Hint := .union [some (.cls 0), none]

/-- C2 store: providers `100 : int` and `101 : str` (classes `0` and `1`). -/
def c2Store : StoreState Nat :=
  (registerCall emptyStore [(100, .atom (.cls 0), 0), (101, .atom (.cls 1), 0)]).1

/-- C2 provider behaviour: provider `100` returns `1`, provider `101`
returns the value standing for `"hi"`. -/
def c2interp : Nat → Option Nat :=
  fun cb => if cb = 100 then some 1 else if cb = 101 then some 42 else none

/-- C2 signature: `f(x: int, y: str)`. -/
def c2params : List (String × Hint) := [("x", .atom (.cls 0)), ("y", .atom (.cls 1))]

/-- C3 store: providers `1` (weight 10) and `2` (weight 0), both for `int`. -/
def c3Store : StoreState Nat :=
  (registerCall emptyStore [(1, .atom (.cls 0), 10), (2, .atom (.cls 0), 0)]).1

/-- C4 store: providers `10` then `20`, both registered for `Optional[int]`
in that order. -/
def c4Store : StoreState Nat :=
  (registerCall emptyStore [(10, optIntHint, 0), (20, optIntHint, 0)]).1

/-- C4 provider behaviour: provider `10` returns `None`, provider `20`
returns `2`. -/
def c4interp : Nat → Option Nat := fun c => if c = 20 then some 2 else none

/-- C6 store A: provider `3` registered for `Sequence` (class `0`). -/
def c6StoreA : StoreState Nat :=
  (registerCall emptyStore [(3, .atom (.cls 0), 0)]).1

/-- C6 store B: provider `3` registered for `list` (class `1`). -/
def c6StoreB : StoreState Nat :=
  (registerCall emptyStore [(3, .atom (.cls 1), 0)]).1

/-- C6 provider behaviour: provider `3` returns `7`. -/
def c6interp : Nat → Option Nat := fun c => if c = 3 then some 7 else none

/-- C8 store: callback `1` registered under `Optional[int]` first, then
callback `2` registered under plain `int`, equal weights. -/
def c8Store : StoreState Nat :=
  (registerCall emptyStore [(1, optIntHint, 0), (2, .atom (.cls 0), 0)]).1

/-- C10: the registered-callback entry produced by registering callback `7`
for `int` at weight 0 — registered identically by two separate calls. -/
def c10e : RegisteredCallback Nat := ⟨.cls 0, 7, false, 0, true⟩

/-! ### Dictionary and bucket lemmas -/

theorem dictGet_dictAppend {κ β : Type} [DecidableEq κ]
    (d : Dict κ (List β)) (k a : κ) (v : β) :
    dictGet (dictAppend d k v) a =
      if k = a then some ((dictGet d a).getD [] ++ [v]) else dictGet d a := by
  induction d with
  | nil =>
    by_cases h : k = a <;> simp [dictAppend, dictGet, h]
  | cons e rest ih =>
    obtain ⟨k', l⟩ := e
    by_cases hk : k' = k
    · subst hk
      by_cases ha : k' = a
      · subst ha
        simp [dictAppend, dictGet]
      · simp [dictAppend, dictGet, ha]
    · by_cases ha : k' = a
      · subst ha
        have hk2 : ¬k = k' := fun h => hk h.symm
        simp [dictAppend, dictGet, hk, hk2]
      · simp [dictAppend, dictGet, hk, ha, ih]

theorem foldl_dictAppend_get_some {γ : Type} [DecidableEq γ]
    (regs : List (RegisteredCallback γ)) :
    ∀ (d : Dict Atom (List (RegisteredCallback γ))) (a : Atom)
      (l : List (RegisteredCallback γ)), dictGet d a = some l →
      dictGet (regs.foldl (fun acc p => dictAppend acc p.origin p) d) a =
        some (l ++ regs.filter (fun p => p.origin == a)) := by
  induction regs with
  | nil => intro d a l h; simpa using h
  | cons p rest ih =>
    intro d a l h
    simp only [List.foldl_cons, List.filter_cons]
    by_cases hp : p.origin = a
    · have : dictGet (dictAppend d p.origin p) a = some (l ++ [p]) := by
        rw [dictGet_dictAppend, if_pos hp, h]; rfl
      rw [ih _ _ _ this]
      simp [hp]
    · have : dictGet (dictAppend d p.origin p) a = some l := by
        rw [dictGet_dictAppend, if_neg hp, h]
      rw [ih _ _ _ this]
      simp [hp]

theorem foldl_dictAppend_get_none {γ : Type} [DecidableEq γ]
    (regs : List (RegisteredCallback γ)) :
    ∀ (d : Dict Atom (List (RegisteredCallback γ))) (a : Atom),
      dictGet d a = none →
      dictGet (regs.foldl (fun acc p => dictAppend acc p.origin p) d) a =
        (if (regs.filter (fun p => p.origin == a)).isEmpty then none
         else some (regs.filter (fun p => p.origin == a))) := by
  induction regs with
  | nil => intro d a h; simpa using h
  | cons p rest ih =>
    intro d a h
    simp only [List.foldl_cons, List.filter_cons]
    by_cases hp : p.origin = a
    · have : dictGet (dictAppend d p.origin p) a = some [p] := by
        rw [dictGet_dictAppend, if_pos hp, h]; rfl
      rw [foldl_dictAppend_get_some _ _ _ _ this]
      simp [hp]
    · have : dictGet (dictAppend d p.origin p) a = none := by
        rw [dictGet_dictAppend, if_neg hp, h]
      rw [ih _ _ this]
      simp [hp]

theorem buildBuckets_get {γ : Type} [DecidableEq γ]
    (regs : List (RegisteredCallback γ)) (a : Atom) :
    dictGet (buildBuckets regs) a =
      (if (regs.filter (fun p => p.origin == a)).isEmpty then none
       else some (regs.filter (fun p => p.origin == a))) :=
  foldl_dictAppend_get_none regs [] a rfl

theorem dictGet_mapSort {γ : Type} [DecidableEq γ]
    (d : Dict Atom (List (RegisteredCallback γ))) (a : Atom) :
    dictGet (d.map fun e => (e.1, (sortDesc e.2).map (·.callback))) a =
      (dictGet d a).map fun l => (sortDesc l).map (·.callback) := by
  induction d with
  | nil => rfl
  | cons e rest ih =>
    by_cases h : e.1 = a <;> simp [dictGet, h, ih]

theorem buildMap_all_get {γ : Type} [DecidableEq γ]
    (regs : List (RegisteredCallback γ)) (a : Atom) :
    dictGet (buildMap regs).all a =
      (if (regs.filter (fun p => p.origin == a)).isEmpty then none
       else some ((sortDesc (regs.filter (fun p => p.origin == a))).map
         (·.callback))) := by
  unfold buildMap
  rw [dictGet_mapSort, buildBuckets_get]
  by_cases h : (regs.filter (fun p => p.origin == a)).isEmpty <;> simp [h]

/-! ### Stable-sort lemmas for `sortDesc` -/

theorem insertByWeight_perm {γ : Type} (x : RegisteredCallback γ)
    (l : List (RegisteredCallback γ)) :
    List.Perm (insertByWeight x l) (x :: l) := by
  induction l with
  | nil => exact List.Perm.refl _
  | cons y ys ih =>
    by_cases h : y.weight ≤ x.weight
    · simp [insertByWeight, h]
    · simp only [insertByWeight, if_neg h]
      exact (ih.cons y).trans (List.Perm.swap x y ys)

theorem sortDesc_perm {γ : Type} (l : List (RegisteredCallback γ)) :
    List.Perm (sortDesc l) l := by
  induction l with
  | nil => exact List.Perm.refl _
  | cons x xs ih =>
    exact (insertByWeight_perm x (sortDesc xs)).trans (ih.cons x)

theorem mem_insertByWeight {γ : Type} {x y : RegisteredCallback γ}
    {l : List (RegisteredCallback γ)} :
    y ∈ insertByWeight x l ↔ y = x ∨ y ∈ l := by
  rw [(insertByWeight_perm x l).mem_iff]
  simp

theorem insertByWeight_pairwise {γ : Type} (x : RegisteredCallback γ)
    (l : List (RegisteredCallback γ))
    (h : l.Pairwise fun a b => b.weight ≤ a.weight) :
    (insertByWeight x l).Pairwise fun a b => b.weight ≤ a.weight := by
  induction l with
  | nil => simp [insertByWeight]
  | cons y ys ih =>
    rcases h with _ | ⟨hy, hys⟩
    by_cases hw : y.weight ≤ x.weight
    · simp only [insertByWeight, if_pos hw]
      refine List.Pairwise.cons ?_ (List.Pairwise.cons hy hys)
      intro b hb
      rcases List.mem_cons.mp hb with rfl | hb
      · exact hw
      · exact le_trans (hy b hb) hw
    · simp only [insertByWeight, if_neg hw]
      refine List.Pairwise.cons ?_ (ih hys)
      intro b hb
      rcases mem_insertByWeight.mp hb with rfl | hb
      · exact le_of_not_le hw
      · exact hy b hb

theorem sortDesc_pairwise {γ : Type} (l : List (RegisteredCallback γ)) :
    (sortDesc l).Pairwise fun a b => b.weight ≤ a.weight := by
  induction l with
  | nil => simp [sortDesc]
  | cons x xs ih => exact insertByWeight_pairwise x (sortDesc xs) ih

theorem filter_insertByWeight {γ : Type} (x : RegisteredCallback γ)
    (l : List (RegisteredCallback γ)) (w : Int) :
    (insertByWeight x l).filter (fun p => p.weight == w) =
      if x.weight = w then x :: l.filter (fun p => p.weight == w)
      else l.filter (fun p => p.weight == w) := by
  induction l with
  | nil => by_cases h : x.weight = w <;> simp [insertByWeight, h]
  | cons y ys ih =>
    by_cases hw : y.weight ≤ x.weight
    · rw [show insertByWeight x (y :: ys) = x :: y :: ys from by
        simp [insertByWeight, hw]]
      by_cases hx : x.weight = w <;> simp [List.filter_cons, hx]
    · have hgt : x.weight < y.weight := lt_of_not_le hw
      rw [show insertByWeight x (y :: ys) = y :: insertByWeight x ys from by
        simp [insertByWeight, hw]]
      by_cases hx : x.weight = w
      · have hyw : ¬y.weight = w := by omega
        simp [List.filter_cons, hx, hyw, ih]
      · by_cases hyw : y.weight = w <;> simp [List.filter_cons, hx, hyw, ih]

theorem sortDesc_stable {γ : Type} (l : List (RegisteredCallback γ)) (w : Int) :
    (sortDesc l).filter (fun p => p.weight == w) =
      l.filter (fun p => p.weight == w) := by
  induction l with
  | nil => rfl
  | cons x xs ih =>
    by_cases hx : x.weight = w <;>
      simp [sortDesc, filter_insertByWeight, hx, ih]

/-! ### Lookup lemmas for `iterTypeMap` -/

theorem iterTypeMap_atom {γ : Type} [DecidableEq γ]
    (sub : ClassId → ClassId → Bool) (cm : CachedMap γ) (a : Atom) :
    iterTypeMap sub cm (.atom a) = (lookupOrigin sub cm a).getD [] := by
  cases h : lookupOrigin sub cm a <;>
    simp [iterTypeMap, splitUnion, List.findSome?, h]

theorem iterTypeMap_nullable {γ : Type} [DecidableEq γ]
    (sub : ClassId → ClassId → Bool) (cm : CachedMap γ) (a : Atom) :
    iterTypeMap sub cm (.union [some a, none]) =
      (lookupOrigin sub cm a).getD [] := by
  cases h : lookupOrigin sub cm a <;>
    simp [iterTypeMap, splitUnion, List.findSome?, h]

theorem lookupOrigin_of_get_some {γ : Type} [DecidableEq γ]
    (sub : ClassId → ClassId → Bool) {cm : CachedMap γ} {a : Atom}
    {cbs : List γ} (h : dictGet cm.all a = some cbs) :
    lookupOrigin sub cm a = some cbs := by
  unfold lookupOrigin
  rw [h]

theorem iterTypeMap_exact {γ : Type} [DecidableEq γ]
    (sub : ClassId → ClassId → Bool) (regs : List (RegisteredCallback γ))
    (a : Atom) (h : ¬(regs.filter (fun p => p.origin == a)).isEmpty) :
    iterTypeMap sub (buildMap regs) (.atom a) =
      (sortDesc (regs.filter (fun p => p.origin == a))).map (·.callback) := by
  have hg : dictGet (buildMap regs).all a =
      some ((sortDesc (regs.filter (fun p => p.origin == a))).map
        (·.callback)) := by
    rw [buildMap_all_get, if_neg h]
  rw [iterTypeMap_atom, lookupOrigin_of_get_some sub hg]
  rfl

/-! ### Removal (`list.remove` / `_dispose`) lemmas -/

theorem removeFirst_of_not_mem {α : Type} [DecidableEq α]
    {l : List α} {p : α} (h : p ∉ l) : removeFirst l p = l := by
  induction l with
  | nil => rfl
  | cons x xs ih =>
    have hx : ¬x = p := fun he => h (he ▸ List.mem_cons_self x xs)
    simp only [removeFirst, if_neg hx]
    rw [ih fun hm => h (List.mem_cons_of_mem x hm)]

theorem removeFirst_append_self {α : Type} [DecidableEq α]
    {l : List α} {p : α} (h : p ∉ l) (rest : List α) :
    removeFirst (l ++ p :: rest) p = l ++ rest := by
  induction l with
  | nil => simp [removeFirst]
  | cons x xs ih =>
    have hx : ¬x = p := fun he => h (he ▸ List.mem_cons_self x xs)
    have step : removeFirst (x :: (xs ++ p :: rest)) p =
        x :: removeFirst (xs ++ p :: rest) p := by
      simp only [removeFirst, if_neg hx]
    rw [List.cons_append, step, ih fun hm => h (List.mem_cons_of_mem x hm)]
    rfl

theorem removeFirst_cons_perm {α : Type} [DecidableEq α]
    {l : List α} {p : α} (h : p ∈ l) :
    List.Perm (p :: removeFirst l p) l := by
  induction l with
  | nil => cases h
  | cons x xs ih =>
    by_cases hx : x = p
    · subst hx
      simp [removeFirst]
    · have hm : p ∈ xs := by
        rcases List.mem_cons.mp h with rfl | hm
        · exact absurd rfl hx
        · exact hm
      simp only [removeFirst, if_neg hx]
      exact (List.Perm.swap x p (removeFirst xs p)).trans ((ih hm).cons x)

theorem removeFirst_perm_congr {α : Type} [DecidableEq α]
    {l₁ l₂ : List α} (h : List.Perm l₁ l₂) (p : α) :
    List.Perm (removeFirst l₁ p) (removeFirst l₂ p) := by
  by_cases hm : p ∈ l₁
  · have hm₂ : p ∈ l₂ := h.mem_iff.mp hm
    exact List.Perm.cons_inv
      ((removeFirst_cons_perm hm).trans (h.trans (removeFirst_cons_perm hm₂).symm))
  · have hm₂ : p ∉ l₂ := fun hx => hm (h.mem_iff.mpr hx)
    rw [removeFirst_of_not_mem hm, removeFirst_of_not_mem hm₂]
    exact h

theorem dispose_perm_congr {γ : Type} [DecidableEq γ]
    (tr : List (RegisteredCallback γ)) :
    ∀ {r₁ r₂ : List (RegisteredCallback γ)}, List.Perm r₁ r₂ →
      List.Perm (dispose tr r₁) (dispose tr r₂) := by
  induction tr with
  | nil => intro r₁ r₂ h; exact h
  | cons t ts ih =>
    intro r₁ r₂ h
    exact ih (removeFirst_perm_congr h t)

theorem dispose_append_perm {γ : Type} [DecidableEq γ]
    (tr : List (RegisteredCallback γ)) :
    ∀ (l : List (RegisteredCallback γ)), List.Perm (dispose tr (l ++ tr)) l := by
  induction tr with
  | nil => intro l; simp [dispose]
  | cons t ts ih =>
    intro l
    have hmem : t ∈ l ++ t :: ts := by simp
    have h1 : List.Perm (removeFirst (l ++ t :: ts) t) (l ++ ts) :=
      List.Perm.cons_inv
        ((removeFirst_cons_perm hmem).trans List.perm_middle)
    show List.Perm (dispose ts (removeFirst (l ++ t :: ts) t)) l
    exact (dispose_perm_congr ts h1).trans (ih l)

theorem dispose_fresh {γ : Type} [DecidableEq γ]
    (tr : List (RegisteredCallback γ)) :
    ∀ (l : List (RegisteredCallback γ)), (∀ p ∈ tr, p ∉ l) →
      dispose tr (l ++ tr) = l := by
  induction tr with
  | nil => intro l _; simp [dispose]
  | cons t ts ih =>
    intro l h
    have ht : t ∉ l := h t (List.mem_cons_self t ts)
    show dispose ts (removeFirst (l ++ t :: ts) t) = l
    rw [removeFirst_append_self ht]
    exact ih l fun p hp => h p (List.mem_cons_of_mem t hp)

theorem dispose_of_disjoint {γ : Type} [DecidableEq γ]
    (tr : List (RegisteredCallback γ)) :
    ∀ (l : List (RegisteredCallback γ)), (∀ p ∈ tr, p ∉ l) →
      dispose tr l = l := by
  induction tr with
  | nil => intro l _; rfl
  | cons t ts ih =>
    intro l h
    show dispose ts (removeFirst l t) = l
    rw [removeFirst_of_not_mem (h t (List.mem_cons_self t ts))]
    exact ih l fun p hp => h p (List.mem_cons_of_mem t hp)

/-! ### Lemmas about the injected call -/

theorem execInjected_noArgs {V : Type} (provideV : Hint → Option V) :
    ∀ (params : List (String × Hint)) (vs : List V),
      params.map (fun p => provideV p.2) = vs.map some →
      execInjected provideV noArgs params = some vs := by
  intro params
  induction params with
  | nil =>
    intro vs h
    cases vs with
    | nil => rfl
    | cons v vs' => simp at h
  | cons p ps ih =>
    intro vs h
    cases vs with
    | nil => simp at h
    | cons v vs' =>
      simp only [List.map_cons, List.cons.injEq] at h
      simp [execInjected, noArgs, h.1, ih vs' h.2]

theorem execInjected_keeps_caller {V : Type} (provideV : Hint → Option V)
    (caller : String → Option V) :
    ∀ (params : List (String × Hint)) (l : List V),
      execInjected provideV caller params = some l →
      ∀ (i : Nat) (hp : i < params.length) (hl : i < l.length) (v : V),
        caller (params.get ⟨i, hp⟩).1 = some v → l.get ⟨i, hl⟩ = v := by
  intro params
  induction params with
  | nil =>
    intro l h i hp
    exact absurd hp (by simp)
  | cons p ps ih =>
    intro l h i hp hl v hc
    rcases harg : (match caller p.1 with
      | some v => some v
      | none => provideV p.2) with _ | w
    · rw [execInjected, harg] at h
      simp at h
    · rcases hrest : execInjected provideV caller ps with _ | l'
      · rw [execInjected, harg, hrest] at h
        simp at h
      · rw [execInjected, harg, hrest] at h
        simp only [Option.some.injEq] at h
        subst h
        cases i with
        | zero =>
          simp only [List.get] at hc ⊢
          rw [hc] at harg
          simpa using harg.symm
        | succ j =>
          exact ih l' hrest j (Nat.lt_of_succ_lt_succ hp)
            (Nat.lt_of_succ_lt_succ hl) v hc

theorem execInjected_length {V : Type} (provideV : Hint → Option V)
    (caller : String → Option V) :
    ∀ (params : List (String × Hint)) (l : List V),
      execInjected provideV caller params = some l →
      l.length = params.length := by
  intro params
  induction params with
  | nil =>
    intro l h
    simp only [execInjected, Option.some.injEq] at h
    subst h
    rfl
  | cons p ps ih =>
    intro l h
    rcases harg : (match caller p.1 with
      | some v => some v
      | none => provideV p.2) with _ | w
    · rw [execInjected, harg] at h
      simp at h
    · rcases hrest : execInjected provideV caller ps with _ | l'
      · rw [execInjected, harg, hrest] at h
        simp at h
      · rw [execInjected, harg, hrest] at h
        simp only [Option.some.injEq] at h
        subst h
        simp [ih l' hrest]

/-! ### Lemmas about the policy loop -/

theorem informLoop_warn_warn (ps : List ParamModel) :
    ∀ w, informLoop .warnP .warnP ps w = (w + ps.countP triggers, .ok true) := by
  induction ps with
  | nil => intro w; simp [informLoop]
  | cons p rest ih =>
    intro w
    by_cases hd : p.hasDefault
    · have ht : triggers p = false := by simp [triggers, hd]
      simp [informLoop, hd, ih, List.countP_cons, ht]
    · cases ha : p.ann with
      | resolved hh =>
        have ht : triggers p = false := by simp [triggers, hd, ha]
        simp [informLoop, hd, ha, ih, List.countP_cons, ht]
      | unresolvedRef =>
        have ht : triggers p = true := by simp [triggers, hd, ha]
        simp only [informLoop, hd, Bool.false_eq_true, if_false, ha, ih,
          List.countP_cons, ht, if_true]
        refine Prod.ext ?_ rfl
        simp
        omega
      | emptyAnn =>
        have ht : triggers p = true := by simp [triggers, hd, ha]
        simp only [informLoop, hd, Bool.false_eq_true, if_false, ha, ih,
          List.countP_cons, ht, if_true]
        refine Prod.ext ?_ rfl
        simp
        omega

theorem informLoop_ignore_ignore (ps : List ParamModel) :
    ∀ w, informLoop .ignoreP .ignoreP ps w = (w, .ok true) := by
  induction ps with
  | nil => intro w; simp [informLoop]
  | cons p rest ih =>
    intro w
    by_cases hd : p.hasDefault
    · simp [informLoop, hd, ih]
    · cases ha : p.ann <;> simp [informLoop, hd, ha, ih]

theorem informLoop_return_return (ps : List ParamModel) :
    ∀ w, informLoop .returnP .returnP ps w = (w, .ok (!ps.any triggers)) := by
  induction ps with
  | nil => intro w; simp [informLoop]
  | cons p rest ih =>
    intro w
    by_cases hd : p.hasDefault
    · have ht : triggers p = false := by simp [triggers, hd]
      simp [informLoop, hd, ih, List.any_cons, ht]
    · cases ha : p.ann with
      | resolved hh =>
        have ht : triggers p = false := by simp [triggers, hd, ha]
        simp [informLoop, hd, ha, ih, List.any_cons, ht]
      | unresolvedRef =>
        have ht : triggers p = true := by simp [triggers, hd, ha]
        simp [informLoop, hd, ha, List.any_cons, ht]
      | emptyAnn =>
        have ht : triggers p = true := by simp [triggers, hd, ha]
        simp [informLoop, hd, ha, List.any_cons, ht]

/-! ### Registry lemmas -/

theorem dictGet_append_fresh {κ β : Type} [DecidableEq κ]
    {d : Dict κ β} {k : κ} (v : β) (h : dictGet d k = none) :
    dictGet (d ++ [(k, v)]) k = some v := by
  induction d with
  | nil => simp [dictGet]
  | cons e rest ih =>
    by_cases he : e.1 = k
    · rw [dictGet, if_pos he] at h
      cases h
    · rw [dictGet, if_neg he] at h
      simpa [dictGet, he] using ih h

theorem dictGet_none_of_not_key {κ β : Type} [DecidableEq κ]
    {d : Dict κ β} {k : κ} (h : k ∉ d.map Prod.fst) : dictGet d k = none := by
  induction d with
  | nil => rfl
  | cons e rest ih =>
    have he : ¬e.1 = k := by
      intro hk
      exact h (by simp [hk])
    rw [dictGet, if_neg he]
    exact ih fun hm => h (by simp; right; simpa using hm)

theorem dictRemove_get_self {κ β : Type} [DecidableEq κ]
    {d : Dict κ β} (hwf : (d.map Prod.fst).Nodup) (k : κ) :
    dictGet (dictRemove d k) k = none := by
  induction d with
  | nil => rfl
  | cons e rest ih =>
    simp only [List.map_cons, List.nodup_cons] at hwf
    by_cases he : e.1 = k
    · rw [dictRemove, if_pos he]
      exact dictGet_none_of_not_key (he ▸ hwf.1)
    · rw [dictRemove, if_neg he, dictGet, if_neg he]
      exact ih hwf.2

/-- C1 helper: what `Store.create` returns on success. -/
theorem create_ok_iff (r : Registry) (s : String) (r' : Registry) (id : Nat)
    (hs : pyLower s ≠ GLOBAL) :
    r.create s = .ok (r', id) ↔
      dictGet r.instances (pyLower s) = none ∧
      r' = ⟨r.instances ++ [(pyLower s, r.nextId)], r.nextId + 1⟩ ∧
      id = r.nextId := by
  unfold Registry.create
  rw [if_neg hs]
  by_cases hex : (dictGet r.instances (pyLower s)).isSome
  · rw [if_pos hex]
    constructor
    · intro h; cases h
    · rintro ⟨hnone, -⟩
      rw [hnone] at hex
      cases hex
  · rw [if_neg hex]
    rw [Option.not_isSome_iff_eq_none] at hex
    constructor
    · intro h
      injection h with h
      exact ⟨hex, (congrArg Prod.fst h).symm, (congrArg Prod.snd h).symm⟩
    · rintro ⟨-, rfl, rfl⟩
      rfl

/-- C1 helper: `Store.get_store` for a nonempty explicit name looks up the
lower-cased name. -/
theorem getStore_some (r : Registry) (t : String) (ht0 : t ≠ "") :
    r.getStore (some t) =
      (match dictGet r.instances (pyLower t) with
       | some id => .ok id
       | none => .error .keyErrNotFound) := by
  show (match dictGet r.instances (pyLower (if t = "" then GLOBAL else t)) with
       | some id => Except.ok id
       | none => Except.error StoreErr.keyErrNotFound) = _
  rw [if_neg ht0]

/-- C1 helper: what `Store.destroy` returns on success. -/
theorem destroy_ok_iff (r : Registry) (s : String) (r' : Registry)
    (hs : pyLower s ≠ GLOBAL) :
    r.destroy s = .ok r' ↔
      (dictGet r.instances (pyLower s)).isSome ∧
      r' = ⟨dictRemove r.instances (pyLower s), r.nextId⟩ := by
  unfold Registry.destroy
  rw [if_neg hs]
  by_cases hex : (dictGet r.instances (pyLower s)).isNone
  · rw [if_pos hex]
    constructor
    · intro h; cases h
    · rintro ⟨hsome, -⟩
      rw [Option.isNone_iff_eq_none] at hex
      rw [hex] at hsome
      cases hsome
  · rw [if_neg hex]
    constructor
    · intro h
      injection h with h
      refine ⟨?_, h.symm⟩
      cases hv : dictGet r.instances (pyLower s)
      · rw [hv] at hex
        exact absurd rfl hex
      · rfl
    · rintro ⟨-, rfl⟩
      rfl

/-- C1: store lifecycle invariants of `Store.create` / `Store.get_store` /
`Store.destroy` (`_store.py` lines 129–203).  For any name `s` whose
lower-cased form is not the reserved `"global"`, and any case variant `t` of
it: a successful `create` makes `get_store` return the identical instance and
makes a second `create` raise `KeyError`; a name already present makes
`create` raise `KeyError`; after a successful `destroy`, `get_store` raises
the not-found `KeyError`; and `create`/`destroy` of any case variant of the
reserved name `"global"` always raise (`KeyError` and `ValueError`
respectively).  Names are case-insensitively normalized throughout. -/
theorem claim_C1 (r : Registry) (s t u : String)
    (hwf : (r.instances.map Prod.fst).Nodup)
    (hs : pyLower s ≠ GLOBAL)
    (hts : pyLower t = pyLower s)
    (ht0 : t ≠ "")
    (hu : pyLower u = GLOBAL) :
    (∀ r' id, r.create s = .ok (r', id) →
       r'.getStore (some t) = .ok id ∧ r'.create t = .error .keyErrExists) ∧
    ((dictGet r.instances (pyLower s)).isSome →
       r.create s = .error .keyErrExists) ∧
    (∀ r', r.destroy s = .ok r' →
       r'.getStore (some t) = .error .keyErrNotFound) ∧
    r.create u = .error .keyErrReserved ∧
    r.destroy u = .error .valueErrGlobalDestroy := by
  have hts' : pyLower t ≠ GLOBAL := hts ▸ hs
  refine ⟨?_, ?_, ?_, ?_, ?_⟩
  · intro r' id hc
    rw [create_ok_iff r s r' id hs] at hc
    obtain ⟨hnone, rfl, rfl⟩ := hc
    constructor
    · rw [getStore_some _ t ht0, hts]
      rw [dictGet_append_fresh r.nextId hnone]
    · unfold Registry.create
      rw [if_neg hts', hts, if_pos (by rw [dictGet_append_fresh r.nextId hnone]; rfl)]
  · intro hex
    unfold Registry.create
    rw [if_neg hs, if_pos hex]
  · intro r' hd
    rw [destroy_ok_iff r s r' hs] at hd
    obtain ⟨-, rfl⟩ := hd
    rw [getStore_some _ t ht0, hts]
    rw [dictRemove_get_self hwf (pyLower s)]
  · unfold Registry.create
    rw [if_pos hu]
  · unfold Registry.destroy
    rw [if_pos hu]

/-- C1 witness: concrete run from the initial registry with name `"Test"`,
case variant `"TEST"`, and reserved variant `"GLOBAL"`. -/
theorem claim_C1_witness :
    ((pyLower "Test" ≠ GLOBAL) ∧ pyLower "TEST" = pyLower "Test") ∧
    Registry.getStore ⟨[(GLOBAL, 0), ("test", 1)], 2⟩ (some "TEST") = .ok 1 ∧
    Registry.create ⟨[(GLOBAL, 0), ("test", 1)], 2⟩ "TEST" =
      .error .keyErrExists ∧
    Registry.create initRegistry "GLOBAL" = .error .keyErrReserved ∧
    Registry.destroy initRegistry "GLOBAL" = .error .valueErrGlobalDestroy := by
  have h := claim_C1 initRegistry "Test" "TEST" "GLOBAL" (by decide) (by decide)
    (by decide) (by decide) (by decide)
  have hc := h.1 ⟨[(GLOBAL, 0), ("test", 1)], 2⟩ 1 rfl
  exact ⟨⟨by decide, by decide⟩, hc.1, hc.2, h.2.2.2.1, h.2.2.2.2⟩

/-! ### `provide` lemmas -/

theorem provideList_eq_findSome {γ V : Type} (interp : γ → Option V)
    (l : List γ) : provideList interp l = l.findSome? interp := by
  induction l with
  | nil => rfl
  | cons cb rest ih =>
    cases h : interp cb <;> simp [provideList, List.findSome?, h, ih]

theorem provideList_none_iff {γ V : Type} (interp : γ → Option V)
    (l : List γ) :
    provideList interp l = none ↔ ∀ cb ∈ l, interp cb = none := by
  induction l with
  | nil => simp [provideList]
  | cons cb rest ih =>
    cases h : interp cb <;> simp [provideList, h, ih]

/-! ### Registration-splitting lemmas (for C5) -/

theorem filter_entries_not_mem {γ : Type} [DecidableEq γ] (cb : γ)
    (opt : Bool) (w : Int) (l : List Atom) (a : Atom) (ha : a ∉ l) :
    ((l.map fun o =>
        (⟨o, cb, opt, w, issubclassable o⟩ : RegisteredCallback γ)).filter
      (fun p => p.origin == a)) = [] := by
  induction l with
  | nil => rfl
  | cons o rest ih =>
    have ho : ¬o = a := fun he => ha (he ▸ List.mem_cons_self o rest)
    simp only [List.map_cons, List.filter_cons]
    have : ((⟨o, cb, opt, w, issubclassable o⟩ :
        RegisteredCallback γ).origin == a) = false := by
      simpa using ho
    rw [this]
    simp only [Bool.false_eq_true, if_false]
    exact ih fun hm => ha (List.mem_cons_of_mem o hm)

theorem filter_entries_nodup {γ : Type} [DecidableEq γ] (cb : γ)
    (opt : Bool) (w : Int) (l : List Atom) (hnd : l.Nodup) (a : Atom)
    (ha : a ∈ l) :
    ((l.map fun o =>
        (⟨o, cb, opt, w, issubclassable o⟩ : RegisteredCallback γ)).filter
      (fun p => p.origin == a)) =
      [⟨a, cb, opt, w, issubclassable a⟩] := by
  induction l with
  | nil => cases ha
  | cons o rest ih =>
    simp only [List.nodup_cons] at hnd
    simp only [List.map_cons, List.filter_cons]
    by_cases ho : o = a
    · subst ho
      simp only [beq_self_eq_true, if_true]
      rw [filter_entries_not_mem cb opt w rest o hnd.1]
    · have hbeq : ((⟨o, cb, opt, w, issubclassable o⟩ :
          RegisteredCallback γ).origin == a) = false := by
        simpa using ho
      rw [hbeq]
      simp only [Bool.false_eq_true, if_false]
      have hm : a ∈ rest := by
        rcases List.mem_cons.mp ha with rfl | hm
        · exact absurd rfl ho
        · exact hm
      exact ih hnd.2 hm

/-! ### Claim theorems -/

/-- C2: end-to-end injection (`Store.inject._exec`, `_store.py` lines
765–831).  For a function whose required parameters all have resolvable
declared types and a store whose registered providers return a non-`None`
instance for each of those types, calling the injected function with no
arguments returns exactly `f` applied to the provided instances — the same
value as calling `f` directly with them; and a parameter explicitly supplied
by the caller is never overwritten by injection (the injected value is only
consulted for parameters the caller did not bind). -/
theorem claim_C2 {γ V R : Type} [DecidableEq γ] (interp : γ → Option V)
    (sub : ClassId → ClassId → Bool) (st : StoreState γ)
    (params : List (String × Hint)) (vs : List V) (f : List V → R)
    (h : params.map (fun p => provideStore interp sub st p.2) = vs.map some) :
    callInjected f (fun hint => provideStore interp sub st hint) params noArgs
      = some (f vs) ∧
    (∀ (caller : String → Option V) (l : List V),
      execInjected (fun hint => provideStore interp sub st hint) caller params
        = some l →
      ∀ (i : Nat) (hp : i < params.length) (hl : i < l.length) (v : V),
        caller (params.get ⟨i, hp⟩).1 = some v → l.get ⟨i, hl⟩ = v) := by
  constructor
  · unfold callInjected
    rw [execInjected_noArgs (fun hint => provideStore interp sub st hint)
      params vs h]
    rfl
  · intro caller l hl
    exact execInjected_keeps_caller _ caller params l hl

/-- C2 witness: `f(x: int, y: str)` with providers `int ↦ 1` and
`str ↦ 42` (the value standing for `"hi"`); the injected call with no
arguments returns `f [1, 42]`. -/
theorem claim_C2_witness :
    (c2params.map (fun p => provideStore c2interp subRefl c2Store p.2)
      = [1, 42].map some) ∧
    callInjected (fun l => l)
      (fun hint => provideStore c2interp subRefl c2Store hint)
      c2params noArgs = some [1, 42] :=
  ⟨rfl, (claim_C2 c2interp subRefl c2Store c2params [1, 42]
    (fun l => l) rfl).1⟩

/-- C3: callback ordering (`Store._build_map` and `Store._sort_key`,
`_store.py` lines 963–990 and 1011–1013).  For any store and any type hint
with at least one registration under it, `iter_providers`/`iter_processors`
yields exactly the callbacks registered under that hint (a permutation of
them), ordered weight-descending (`Pairwise`), with the equal-weight
subsequence for every weight left in original registration order (the
stable tie-break). -/
theorem claim_C3 {γ : Type} [DecidableEq γ] (sub : ClassId → ClassId → Bool)
    (regs : List (RegisteredCallback γ)) (a : Atom)
    (h : ¬(regs.filter (fun p => p.origin == a)).isEmpty) :
    iterTypeMap sub (buildMap regs) (.atom a) =
      (sortDesc (regs.filter (fun p => p.origin == a))).map (·.callback) ∧
    List.Perm (sortDesc (regs.filter (fun p => p.origin == a)))
      (regs.filter (fun p => p.origin == a)) ∧
    (sortDesc (regs.filter (fun p => p.origin == a))).Pairwise
      (fun x y => y.weight ≤ x.weight) ∧
    ∀ w, (sortDesc (regs.filter (fun p => p.origin == a))).filter
        (fun p => p.weight == w) =
      (regs.filter (fun p => p.origin == a)).filter (fun p => p.weight == w) :=
  ⟨iterTypeMap_exact sub regs a h, sortDesc_perm _, sortDesc_pairwise _,
    fun w => sortDesc_stable _ w⟩

/-- C3 witness: providers `1` (weight 10) and `2` (weight 0) registered for
`int` in that order; iteration yields `[1, 2]`. -/
theorem claim_C3_witness :
    ¬((c3Store.regs.filter (fun p => p.origin == Atom.cls 0)).isEmpty) ∧
    iterTypeMap subRefl (buildMap c3Store.regs) (.atom (.cls 0)) = [1, 2] :=
  ⟨by decide,
    ((claim_C3 subRefl c3Store.regs (.cls 0) (by decide)).1).trans (by decide)⟩

/-- C4: `Store.provide` (`_store.py` lines 518–539) calls each provider
yielded by `iter_providers` in order and returns the first non-`None`
result, returning `None` exactly when every yielded provider returns `None`
(in particular when none is yielded); and, concretely, registering in order
a provider returning `None` and then one returning `2`, both for
`Optional[int]`, makes `provide(Optional[int])` return `2`. -/
theorem claim_C4 :
    (∀ (γ V : Type) [DecidableEq γ] (interp : γ → Option V)
      (sub : ClassId → ClassId → Bool) (st : StoreState γ) (hint : Hint),
      provideStore interp sub st hint =
        (iterStore sub st hint).findSome? interp ∧
      (provideStore interp sub st hint = none ↔
        ∀ cb ∈ iterStore sub st hint, interp cb = none)) ∧
    provideStore c4interp subRefl c4Store optIntHint = some 2 :=
  ⟨fun _γ _V _ interp sub st hint =>
    ⟨provideList_eq_findSome interp (iterStore sub st hint),
     provideList_none_iff interp (iterStore sub st hint)⟩,
   rfl⟩

/-- C5: union registration split (`Store._register_callbacks`, `_store.py`
lines 1044–1101, and `_util._split_union`).  Registering one callback under
a union hint creates one registry entry per non-`None` union member, all
sharing the callback, the weight and the optional flag; and when the union's
members are distinct and nothing else is registered, the callback is the
sole match yielded for a query on each member. -/
theorem claim_C5 {γ : Type} [DecidableEq γ] (sub : ClassId → ClassId → Bool)
    (cb : γ) (w : Int) (args : List (Option Atom))
    (hnd : (args.filterMap id).Nodup) :
    toRegister [(cb, .union args, w)] =
      (args.filterMap id).map
        (fun o => ⟨o, cb, args.contains none, w, issubclassable o⟩) ∧
    ∀ a ∈ args.filterMap id,
      iterTypeMap sub (buildMap (toRegister [(cb, .union args, w)]))
        (.atom a) = [cb] := by
  have hdef : toRegister [(cb, .union args, w)] =
      (args.filterMap id).map
        (fun o => ⟨o, cb, args.contains none, w, issubclassable o⟩) := by
    simp [toRegister, entriesFor, splitUnion]
  refine ⟨hdef, ?_⟩
  intro a ha
  have hfil : ((toRegister [(cb, .union args, w)]).filter
      (fun p => p.origin == a)) =
      [⟨a, cb, args.contains none, w, issubclassable a⟩] := by
    rw [hdef]
    exact filter_entries_nodup cb (args.contains none) w _ hnd a ha
  have hne : ¬((toRegister [(cb, .union args, w)]).filter
      (fun p => p.origin == a)).isEmpty := by
    rw [hfil]
    simp
  rw [iterTypeMap_exact sub _ a hne, hfil]
  rfl

/-- C5 witness: a processor `5` registered for the union of `int` (class 0)
and `str` (class 1) is the sole match both for `int` and for `str`. -/
theorem claim_C5_witness :
    (([some (Atom.cls 0), some (Atom.cls 1)].filterMap id).Nodup) ∧
    iterTypeMap subRefl
      (buildMap (toRegister
        [(5, .union [some (Atom.cls 0), some (Atom.cls 1)], 0)]))
      (.atom (.cls 0)) = [5] ∧
    iterTypeMap subRefl
      (buildMap (toRegister
        [(5, .union [some (Atom.cls 0), some (Atom.cls 1)], 0)]))
      (.atom (.cls 1)) = [5] := by
  have h := claim_C5 subRefl 5 0 [some (Atom.cls 0), some (Atom.cls 1)]
    (by decide)
  exact ⟨by decide, h.2 (.cls 0) (by decide), h.2 (.cls 1) (by decide)⟩

/-- C6: one-directional subclass fallback (`Store._iter_type_map`,
`_store.py` lines 992–1009).  With classes `k` (the ancestor, e.g.
`Sequence`) and `c` (the subclass, e.g. `list`), `issubclass(c, k)` holding
and `issubclass(k, c)` not: a provider registered under `k` is found and
used by a query for `c` (no exact match, subclass scan hits), while a
provider registered under `c` yields nothing for a query for `k` (the
direction does not invert); and in any store, when the query type has an
exact-match bucket, that bucket is returned as-is — the exact-match map is
consulted before any subclass scan. -/
theorem claim_C6 {γ V : Type} [DecidableEq γ] (sub : ClassId → ClassId → Bool)
    (cb : γ) (v : V) (interp : γ → Option V) (w : Int) (k c : ClassId)
    (hkc : sub c k = true) (hck : sub k c = false) (hne : c ≠ k)
    (hv : interp cb = some v) :
    (iterStore sub (registerCall emptyStore [(cb, .atom (.cls k), w)]).1
        (.atom (.cls c)) = [cb] ∧
      provideStore interp sub
        (registerCall emptyStore [(cb, .atom (.cls k), w)]).1
        (.atom (.cls c)) = some v) ∧
    (iterStore sub (registerCall emptyStore [(cb, .atom (.cls c), w)]).1
        (.atom (.cls k)) = [] ∧
      provideStore interp sub
        (registerCall emptyStore [(cb, .atom (.cls c), w)]).1
        (.atom (.cls k)) = none) ∧
    (∀ (regs : List (RegisteredCallback γ)) (a : Atom) (cbs : List γ),
      dictGet (buildMap regs).all a = some cbs →
      iterTypeMap sub (buildMap regs) (.atom a) = cbs) := by
  have hknec : ¬(Atom.cls k = Atom.cls c) := fun hh => hne (Atom.cls.inj hh).symm
  have hcnek : ¬(Atom.cls c = Atom.cls k) := fun hh => hne (Atom.cls.inj hh)
  have hiterA : iterStore sub
      (registerCall emptyStore [(cb, .atom (.cls k), w)]).1
      (.atom (.cls c)) = [cb] := by
    rw [show iterStore sub
        (registerCall emptyStore [(cb, .atom (.cls k), w)]).1
        (.atom (.cls c)) =
      iterTypeMap sub
        (buildMap [⟨Atom.cls k, cb, false, w, true⟩]) (.atom (.cls c))
      from rfl]
    rw [show buildMap [(⟨Atom.cls k, cb, false, w, true⟩ :
        RegisteredCallback γ)] =
      ⟨[(Atom.cls k, [cb])], [(Atom.cls k, [cb])]⟩ from rfl]
    rw [iterTypeMap_atom]
    have hget : dictGet [(Atom.cls k, [cb])] (Atom.cls c) = none := by
      rw [dictGet, if_neg hknec]
      rfl
    unfold lookupOrigin
    rw [hget]
    simp [List.find?, hkc]
  have hiterB : iterStore sub
      (registerCall emptyStore [(cb, .atom (.cls c), w)]).1
      (.atom (.cls k)) = [] := by
    rw [show iterStore sub
        (registerCall emptyStore [(cb, .atom (.cls c), w)]).1
        (.atom (.cls k)) =
      iterTypeMap sub
        (buildMap [⟨Atom.cls c, cb, false, w, true⟩]) (.atom (.cls k))
      from rfl]
    rw [show buildMap [(⟨Atom.cls c, cb, false, w, true⟩ :
        RegisteredCallback γ)] =
      ⟨[(Atom.cls c, [cb])], [(Atom.cls c, [cb])]⟩ from rfl]
    rw [iterTypeMap_atom]
    have hget : dictGet [(Atom.cls c, [cb])] (Atom.cls k) = none := by
      rw [dictGet, if_neg hcnek]
      rfl
    unfold lookupOrigin
    rw [hget]
    simp [List.find?, hck]
  refine ⟨⟨hiterA, ?_⟩, ⟨hiterB, ?_⟩, ?_⟩
  · unfold provideStore
    rw [hiterA]
    simp [provideList, hv]
  · unfold provideStore
    rw [hiterB]
    rfl
  · intro regs a cbs hget
    rw [iterTypeMap_atom, lookupOrigin_of_get_some sub hget]
    rfl

/-- C6 witness: with `Sequence` as class 0 and `list` as class 1 under
`subSeq`, a provider `3` (returning `7`) registered for `Sequence` satisfies
`provide(list)`, and a provider registered for `list` does not satisfy
`provide(Sequence)`. -/
theorem claim_C6_witness :
    (subSeq 1 0 = true ∧ subSeq 0 1 = false ∧ (1 : ClassId) ≠ 0 ∧
      c6interp 3 = some 7) ∧
    provideStore c6interp subSeq c6StoreA (.atom (.cls 1)) = some 7 ∧
    provideStore c6interp subSeq c6StoreB (.atom (.cls 0)) = none := by
  have h := claim_C6 subSeq 3 7 c6interp 0 0 1 (by decide) (by decide)
    (by decide) (by decide)
  exact ⟨⟨by decide, by decide, by decide, by decide⟩, h.1.2, h.2.1.2⟩

/-- C7 counterexample: with policy `warn`, a function with a required
unresolvable-annotation parameter (and likewise one with a required
unannotated parameter) is *not* handed back undecorated: the loop in
`_resolve_sig_or_inform` warns and keeps going, so `inject` builds and
returns the `_exec` wrapper.  The claim's "`warn` behaves exactly like
`return` plus a warning" is therefore false at this input. -/
theorem claim_C7_counterexample :
    injectResolve .warnP .warnP [⟨false, .unresolvedRef⟩]
      = (1, .ok .decorated) ∧
    injectResolve .warnP .warnP [⟨false, .emptyAnn⟩]
      = (1, .ok .decorated) ∧
    (injectResolve .warnP .warnP [⟨false, .unresolvedRef⟩]).2
      ≠ .ok .original ∧
    (injectResolve .warnP .warnP [⟨false, .emptyAnn⟩]).2
      ≠ .ok .original := by
  refine ⟨rfl, rfl, ?_, ?_⟩ <;>
    · intro hcon
      exact InjectOut.noConfusion (Except.ok.inj hcon)

/-- C7 amended: under the `warn` policies, `_resolve_sig_or_inform` emits
one warning per offending required parameter and then *continues
decorating* (it returns the signature, never the give-back-original
sentinel and never an exception), so `inject` returns the injecting
wrapper; the decoration decision under `warn` is identical to the one under
`ignore`, which proceeds with no warnings — `warn` is `ignore` plus
warnings, not `return` plus a warning.  Among the four policies only
`return` hands back the original, undecorated function: the full decision
table for a required unresolvable-annotation parameter (governed by
`on_unresolved_required_args`) and for a required unannotated parameter
(governed by `on_unannotated_required_args`) shows `raise` raising
(`NameError` / `TypeError` respectively), `warn` warning and decorating,
`return` silently returning the original, and `ignore` silently
decorating; and under the `return` policies, any function with at least
one offending required parameter gets the original back, warning-free,
while one with none is decorated. -/
theorem claim_C7_amended (ps : List ParamModel) :
    injectResolve .warnP .warnP ps = (ps.countP triggers, .ok .decorated) ∧
    (injectResolve .warnP .warnP ps).2 =
      (injectResolve .ignoreP .ignoreP ps).2 ∧
    injectResolve .ignoreP .ignoreP ps = (0, .ok .decorated) ∧
    injectResolve .returnP .returnP ps =
      (0, .ok (if ps.any triggers then .original else .decorated)) ∧
    (∀ u a : Policy,
      injectResolve u a [⟨false, .unresolvedRef⟩] =
        (match u with
         | .raiseP => (0, .error .nameError)
         | .warnP => (1, .ok .decorated)
         | .returnP => (0, .ok .original)
         | .ignoreP => (0, .ok .decorated))) ∧
    (∀ u a : Policy,
      injectResolve u a [⟨false, .emptyAnn⟩] =
        (match a with
         | .raiseP => (0, .error .typeError)
         | .warnP => (1, .ok .decorated)
         | .returnP => (0, .ok .original)
         | .ignoreP => (0, .ok .decorated))) := by
  have hw := informLoop_warn_warn ps 0
  have hi := informLoop_ignore_ignore ps 0
  have hr := informLoop_return_return ps 0
  refine ⟨?_, ?_, ?_, ?_, ?_, ?_⟩
  · unfold injectResolve
    rw [hw]
    simp
  · unfold injectResolve
    rw [hw, hi]
  · unfold injectResolve
    rw [hi]
  · unfold injectResolve
    rw [hr]
    cases hany : ps.any triggers <;> simp [hany]
  · intro u a
    cases u <;> cases a <;> rfl
  · intro u a
    cases u <;> cases a <;> rfl

/-- C8 counterexample: callback `1` is registered under `Optional[int]`
first and callback `2` under plain `int` second, with equal weights; a query
for `Optional[int]` yields `[1, 2]` — the optional-form registration first —
so the claimed precedence of the non-optional registration at equal weights
is false: `Store._sort_key` consults only the weight, never
`hint_optional`. -/
theorem claim_C8_counterexample :
    c8Store.regs.map (fun p => (p.callback, p.hint_optional))
      = [(1, true), (2, false)] ∧
    iterStore subRefl c8Store optIntHint = [1, 2] ∧
    (iterStore subRefl c8Store optIntHint).head? ≠ some 2 := by
  exact ⟨rfl, rfl, by decide⟩

/-- C8 amended: a query for the nullable form of a type sees every
registration bucketed under the base type — those made under the plain type
and those made under its nullable form alike — and behaves exactly as the
plain-type query: the order is weight-descending with registration order as
the tie-break, with the optional flag playing no role in the ordering. -/
theorem claim_C8_amended {γ : Type} [DecidableEq γ]
    (sub : ClassId → ClassId → Bool) (regs : List (RegisteredCallback γ))
    (a : Atom) (h : ¬(regs.filter (fun p => p.origin == a)).isEmpty) :
    iterTypeMap sub (buildMap regs) (.union [some a, none]) =
      (sortDesc (regs.filter (fun p => p.origin == a))).map (·.callback) ∧
    iterTypeMap sub (buildMap regs) (.union [some a, none]) =
      iterTypeMap sub (buildMap regs) (.atom a) ∧
    ∀ p ∈ regs, p.origin = a →
      p.callback ∈ iterTypeMap sub (buildMap regs) (.union [some a, none]) := by
  have heq : iterTypeMap sub (buildMap regs) (.union [some a, none]) =
      iterTypeMap sub (buildMap regs) (.atom a) := by
    rw [iterTypeMap_nullable, iterTypeMap_atom]
  have hex := iterTypeMap_exact sub regs a h
  refine ⟨heq.trans hex, heq, ?_⟩
  intro p hp hpa
  rw [heq.trans hex]
  have hmf : p ∈ regs.filter (fun p => p.origin == a) := by
    rw [List.mem_filter]
    exact ⟨hp, by simp [hpa]⟩
  have hms : p ∈ sortDesc (regs.filter (fun p => p.origin == a)) :=
    (sortDesc_perm _).mem_iff.mpr hmf
  exact List.mem_map_of_mem (·.callback) hms

/-- C8 witness: the amended ordering applied to the store of the
counterexample input — both the optional-form and the plain registration
are yielded for the nullable query, in registration order at equal
weights. -/
theorem claim_C8_witness :
    ¬((c8Store.regs.filter (fun p => p.origin == Atom.cls 0)).isEmpty) ∧
    iterTypeMap subRefl (buildMap c8Store.regs) (.union [some (.cls 0), none])
      = [1, 2] :=
  ⟨by decide,
    ((claim_C8_amended subRefl c8Store.regs (.cls 0) (by decide)).1).trans
      (by decide)⟩

/-- C9: evaluation of the per-call settings resolution of `Store.inject`
(`_store.py` lines 729–731) at the failing input.  An explicitly supplied
policy value does govern the call (`x or default` keeps any truthy policy
string), but `guess_self=False` is falsy, so `_guess_self = guess_self or
self.guess_self` evaluates to the store default `True` — the explicit
`False` does not govern the call, contradicting the claim (and the spec's
"store-level defaults apply when absent"). -/
theorem claim_C9_code_eval :
    (∀ (p d : Policy), resolvePolicyArg (some p) d = p) ∧
    resolveGuessSelf (some false) true = true ∧
    resolveGuessSelf (some false) true ≠ false :=
  ⟨fun _ _ => rfl, rfl, by decide⟩

/-- C10 counterexample: two separate registration calls each register the
equal entry `c10e`; after the second call's disposer runs once (store back
to one entry), running the same disposer again removes the *other* call's
equal entry as well — `list.remove` deletes the first equal element, so the
second invocation is not a no-op, refuting "already-removed entries are
never removed twice, even when an equal callback/hint/weight combination
was registered by another call". -/
theorem claim_C10_counterexample :
    dispose [c10e] [c10e, c10e] = [c10e] ∧
    dispose [c10e] (dispose [c10e] [c10e, c10e]) = [] ∧
    dispose [c10e] (dispose [c10e] [c10e, c10e]) ≠ dispose [c10e] [c10e, c10e]
    := by
  exact ⟨rfl, rfl, by decide⟩

/-- C10 amended: a disposer removes exactly the entries its call registered
— as lists when no equal entry pre-existed (others left intact), and as a
multiset (permutation) in general; under the same freshness condition,
invoking the disposer a second time is a no-op; every disposal invalidates
the cache; and repeating `InjectionContext.cleanup` is always a no-op
because the context clears its aggregated disposers. -/
theorem claim_C10_amended {γ : Type} [DecidableEq γ]
    (regs0 tr : List (RegisteredCallback γ)) (h : ∀ p ∈ tr, p ∉ regs0) :
    dispose tr (regs0 ++ tr) = regs0 ∧
    dispose tr (dispose tr (regs0 ++ tr)) = regs0 ∧
    (∀ (regs0' tr' : List (RegisteredCallback γ)),
      List.Perm (dispose tr' (regs0' ++ tr')) regs0') ∧
    (∀ (st : StoreState γ) (tr' : List (RegisteredCallback γ)),
      (disposeCall st tr').cache = none) ∧
    (∀ (ctx : InjCtx γ) (st : StoreState γ),
      cleanup (cleanup ctx st).2 (cleanup ctx st).1 =
        ((cleanup ctx st).1, ⟨[]⟩)) := by
  refine ⟨dispose_fresh tr regs0 h, ?_, ?_, ?_, ?_⟩
  · rw [dispose_fresh tr regs0 h]
    exact dispose_of_disjoint tr regs0 h
  · intro regs0' tr'
    exact dispose_append_perm tr' regs0'
  · intro st tr'
    rfl
  · intro ctx st
    rfl

/-- C10 witness: a fresh registration of `c10e` into an empty registry is
removed exactly by its disposer, and a second invocation is then a no-op. -/
theorem claim_C10_witness :
    (∀ p ∈ [c10e], p ∉ ([] : List (RegisteredCallback Nat))) ∧
    dispose [c10e] ([] ++ [c10e]) = [] ∧
    dispose [c10e] (dispose [c10e] ([] ++ [c10e])) = [] := by
  have h := claim_C10_amended [] [c10e] (by decide)
  exact ⟨by decide, h.1, h.2.1⟩
